import Mathlib

/-!
Shallow embedding of the pipelinewise fastsync S3-CSV tap
(`pipelinewise/fastsync/commons/tap_s3_csv.py`).

The Python module lists objects of an S3 bucket, filters them against a
table's regular-expression pattern and an incremental `modified_since`
watermark, streams CSV rows into records with injected provenance columns,
writes one compressed output artifact per table and records a new per-table
watermark.  Network calls (boto3), the `re` engine and
`singer_encodings`/`messytables` are external libraries: the regular
expression is modelled as its compile outcome (an optional `String → Bool`
search function), the bucket as a listing plus a map from key to parsed CSV
rows, and timestamps as natural numbers.  Everything else below is a direct
translation of the module's control flow.
-/

/-- Cell values appearing in extracted records (strings, the integer
line number, and Python `None` for `_SDC_DELETED_AT`). -/
inductive Value where
  | str (s : String)
  | nat (n : Nat)
  | null
deriving DecidableEq, Repr

/-- One S3 object as produced by `S3Helper.list_files_in_bucket`:
its `Key`, `Size` and `LastModified` fields. -/
structure S3Object where
  key : String
  size : Nat
  lastModified : Nat
deriving DecidableEq, Repr

/-- The dict yielded per accepted object by
`S3Helper.get_input_files_for_table`. -/
structure AcceptedFile where
  key : String
  lastModified : Nat
deriving DecidableEq, Repr

/-- Exceptions raised by the modelled slice: botocore `ClientError`
(the class retried by `retry_pattern`), the `ValueError` for an invalid
`search_pattern`, the plain `Exception` raised when no file matched,
the `AttributeError` raised by `None.isoformat()`, and the
`StopIteration` of `_find_table_spec_by_name`. -/
inductive Exc where
  | clientError (msg : String)
  | valueError (msg : String)
  | genericError (msg : String)
  | attributeError (msg : String)
  | stopIteration
deriving DecidableEq, Repr

/-- Lookup in a Python dict modelled as an association list; the first
binding for a key wins (the dicts built below never bind a key twice). -/
def dlookup {V : Type} : List (String × V) → String → Option V
  | [], _ => none
  | p :: t, k => if p.1 == k then some p.2 else dlookup t k

/-- The keys of a dict. -/
def dkeys {V : Type} (d : List (String × V)) : List String := d.map Prod.fst

/-- Python `d[k] = v`: replace the binding of `k` in place if present,
otherwise append the new binding. -/
def dictInsert {V : Type} (d : List (String × V)) (k : String) (v : V) : List (String × V) :=
  if d.any (fun p => p.1 == k) then d.map (fun p => if p.1 == k then (k, v) else p)
  else d ++ [(k, v)]

/-- Python dict merge (record = new_row merged with custom_columns, the
second dict winning on common keys): keys are the union of both key sets and
lookups prefer `b`.  Entries of `a` whose key also occurs in `b` are dropped
in favour of `b`'s binding. -/
def dictUnion {V : Type} (a b : List (String × V)) : List (String × V) :=
  a.filter (fun p => (dlookup b p.1).isNone) ++ b

/-- Test `modified_since is None or modified_since < last_modified`
(line 244 of the source). -/
def msLtB : Option Nat → Nat → Bool
  | none, _ => true
  | some m, lm => decide (m < lm)

/-- Python truthiness of the optional `search_prefix` (line 262:
`if prefix:` — `None` and the empty string are falsy). -/
def pyTruthy : Option String → Bool
  | none => false
  | some s => !(s == "")

/-- A table specification: the table name, the optional `search_prefix`,
the raw `search_pattern` text and the outcome of `re.compile` on it
(`none` when the pattern is not a valid regular expression, otherwise the
`re.search` matcher as a predicate on keys). -/
structure TableSpec where
  tableName : String
  searchPrefixOpt : Option String
  searchPatternRaw : String
  searchPatternCompiled : Option (String → Bool)

/-- The connection configuration: bucket name, the `start_date` already
parsed by `strptime_with_tz`, and the table specs. -/
structure ConnectionConfig where
  bucket : String
  startDate : Nat
  tables : List TableSpec

/-- The state of the bucket during one run: the listing that
`list_files_in_bucket` enumerates and, per key, the CSV rows that the
singer row iterator produces for that object (each row an ordered mapping
from source column name to value). -/
structure S3Env where
  listing : List S3Object
  contents : String → List (List (String × Value))

/-- The counters and accepted files accumulated by the scan loop of
`get_input_files_for_table` (lines 229-248). -/
structure ScanState where
  matched : Nat
  unmatched : Nat
  accepted : List AcceptedFile
deriving DecidableEq, Repr

/-- One iteration of the scan loop: an empty object is counted unmatched
and skipped; otherwise a key found by `matcher.search` is counted matched
and yielded when `modified_since is None or modified_since < last_modified`;
all other keys are counted unmatched. -/
def scanStep (search : String → Bool) (ms : Option Nat) (st : ScanState) (o : S3Object) :
    ScanState :=
  if o.size = 0 then { st with unmatched := st.unmatched + 1 }
  else if search o.key then
    let st2 := { st with matched := st.matched + 1 }
    if msLtB ms o.lastModified then
      { st2 with accepted := st2.accepted ++ [⟨o.key, o.lastModified⟩] }
    else st2
  else { st with unmatched := st.unmatched + 1 }

/-- The whole scan of the bucket listing. -/
def scanAll (search : String → Bool) (ms : Option Nat) (listing : List S3Object) : ScanState :=
  listing.foldl (scanStep search ms) ⟨0, 0, []⟩

/-- The sequence of files yielded by `get_input_files_for_table` while it
scans the listing. -/
def yieldedFiles (search : String → Bool) (ms : Option Nat) (listing : List S3Object) :
    List AcceptedFile :=
  (scanAll search ms listing).accepted

/-- Message of the `Exception` raised when no file matched (lines 261-267);
the prefix variant is used only when the prefix is truthy. -/
def noFilesMsg (bucket : String) (pfx : Option String) (pat : String) : String :=
  if pyTruthy pfx then
    "No files found in bucket \"" ++ bucket ++ "\" that matches prefix \"" ++ pfx.getD "" ++
      "\" and pattern \"" ++ pat ++ "\""
  else
    "No files found in bucket \"" ++ bucket ++ "\" that matches pattern \"" ++ pat ++ "\""

/-- Message of the `ValueError` raised for an invalid `search_pattern`
(lines 220-225). -/
def invalidPatternMsg (tableName : String) : String :=
  "search_pattern for table `" ++ tableName ++
    "` is not a valid regular expression. See https://docs.python.org/3.5/library/re.html#regular-expression-syntax"

/-- Model of `S3Helper.get_input_files_for_table`, consumed to exhaustion (as
`copy_table` does): compile the pattern (a `ValueError` before any object is
examined when it is invalid), scan the listing, and raise when no file
matched the pattern; otherwise the accepted files are exactly the scan's
yield. -/
def getInputFilesForTable (bucket : String) (ts : TableSpec) (listing : List S3Object)
    (ms : Option Nat) : Except Exc (List AcceptedFile) :=
  match ts.searchPatternCompiled with
  | none => Except.error (Exc.valueError (invalidPatternMsg ts.tableName))
  | some search =>
    let st := scanAll search ms listing
    if st.matched = 0 then
      Except.error (Exc.genericError (noFilesMsg bucket ts.searchPrefixOpt ts.searchPatternRaw))
    else Except.ok st.accepted

/-- The `custom_columns` dict of `_get_file_records` (lines 102-109): note
that the first three names are lowercase constants of `S3Helper` while the
last three are uppercase string literals in the source. -/
def customColumns (bucket s3Path : String) (lineno : Nat) (now : String) :
    List (String × Value) :=
  [("_sdc_source_bucket", Value.str bucket),
   ("_sdc_source_file", Value.str s3Path),
   ("_sdc_source_lineno", Value.nat lineno),
   ("_SDC_EXTRACTED_AT", Value.str now),
   ("_SDC_BATCHED_AT", Value.str now),
   ("_SDC_DELETED_AT", Value.null)]

/-- The six column names injected into every record, in source order. -/
def injectedNames : List String :=
  ["_sdc_source_bucket", "_sdc_source_file", "_sdc_source_lineno",
   "_SDC_EXTRACTED_AT", "_SDC_BATCHED_AT", "_SDC_DELETED_AT"]

/-- The `new_row` dict of `_get_file_records` (lines 111-113): every source field
name passes through `safe_column_name` (imported from `.utils`, outside the
modelled slice, hence a parameter here). -/
def buildNewRow (sanitize : String → String) (row : List (String × Value)) :
    List (String × Value) :=
  row.foldl (fun d p => dictInsert d (sanitize p.1) p.2) []

/-- The `record` built on line 115, new_row merged with custom_columns: the injected
columns overwrite colliding sanitized source columns. -/
def makeRecord (sanitize : String → String) (bucket s3Path : String) (lineno : Nat)
    (now : String) (row : List (String × Value)) : List (String × Value) :=
  dictUnion (buildNewRow sanitize row) (customColumns bucket s3Path lineno now)

/-- Python `set.add`: the `headers` set is modelled as a duplicate-free
list in insertion order (membership is all that is ever observed of it). -/
def pySetAdd (s : List String) (k : String) : List String :=
  if k ∈ s then s else s ++ [k]

/-- Python `headers.update(record.keys())`. -/
def pySetUpdate (s : List String) (ks : List String) : List String :=
  ks.foldl pySetAdd s

/-- Boolean lexicographic comparison of character lists in code-point
order, structurally recursive (kernel-computable). -/
def charListLeB : List Char → List Char → Bool
  | [], _ => true
  | _ :: _, [] => false
  | a :: as, b :: bs => if a < b then true else if b < a then false else charListLeB as bs

/-- Python string comparison (code-point lexicographic `<=`); it agrees
with `String` `≤` (see `strLeB_iff_le`). -/
def strLeB (a b : String) : Bool := charListLeB a.data b.data

/-- Ordered insertion into a sorted list of strings. -/
def insertStr (x : String) : List String → List String
  | [] => [x]
  | y :: t => if strLeB x y then x :: y :: t else y :: insertStr x t

/-- Python `sorted(...)` on strings: ascending lexicographic insertion
sort (Python compares strings by code points, as `String` `≤` does). -/
def sortStrings : List String → List String
  | [] => []
  | x :: t => insertStr x (sortStrings t)

/-- Model of `FastSyncTapS3Csv._get_file_records`: appends one record per CSV row to
the shared `records` list and accumulates the observed column names; the
line number of each record is `records_copied + 1` where `records_copied`
starts at the current length of the shared list (so numbering continues
across source objects).  `nowClock` models `datetime.utcnow()` at each row. -/
def getFileRecords (bucket s3Path : String) (sanitize : String → String)
    (nowClock : Nat → String) (rows : List (List (String × Value)))
    (acc : List (List (String × Value)) × List String) :
    List (List (String × Value)) × List String :=
  rows.foldl (fun a row =>
    let record := makeRecord sanitize bucket s3Path (a.1.length + 1) (nowClock a.1.length) row
    (a.1 ++ [record], pySetUpdate a.2 (dkeys record))) acc

/-- The lookup `next(filter(lambda x: x['table_name'] == table_name, ...))`
of `_find_table_spec_by_name` (raises `StopIteration` when absent). -/
def findTableSpecByName (cfg : ConnectionConfig) (name : String) : Option TableSpec :=
  cfg.tables.find? (fun t => t.tableName == name)

/-- The record-accumulation loop of `copy_table` (lines 57-63): extract
every accepted file in order into the shared `records`/`headers`
accumulators, starting from the empty list and the empty set. -/
def extractAll (env : S3Env) (cfg : ConnectionConfig) (sanitize : String → String)
    (nowClock : Nat → String) (files : List AcceptedFile) :
    List (List (String × Value)) × List String :=
  files.foldl (fun a f => getFileRecords cfg.bucket f.key sanitize nowClock
    (env.contents f.key) a) ([], [])

/-- The running maximum of `copy_table` (lines 60-65):
`if max_last_modified is None or max_last_modified < lm: max_last_modified = lm`. -/
def maxUpdate : Option Nat → Nat → Option Nat
  | none, lm => some lm
  | some m, lm => if m < lm then some lm else some m

/-- The artifact written by `csv.DictWriter`: the header row (the sorted
set of observed column names) and, per record, one cell per header column
holding the record's value for that column when present (`DictWriter`
renders a missing field as its empty `restval`). -/
structure OutputArtifact where
  header : List String
  rows : List (List (Option Value))
deriving DecidableEq, Repr

/-- Model of `FastSyncTapS3Csv.copy_table`: find the table spec, filter the bucket
with `modified_since = strptime_with_tz(start_date)`, extract all accepted
files, record the new watermark in `tables_last_modified` (line 67 runs
unconditionally, also when nothing was accepted), and write the artifact
with `fieldnames = sorted(list(headers))`. -/
def copyTable (env : S3Env) (cfg : ConnectionConfig) (sanitize : String → String)
    (nowClock : Nat → String) (tableName : String) (tlm : List (String × Option Nat)) :
    Except Exc (OutputArtifact × List (String × Option Nat)) :=
  match findTableSpecByName cfg tableName with
  | none => Except.error Exc.stopIteration
  | some ts =>
    match getInputFilesForTable cfg.bucket ts env.listing (some cfg.startDate) with
    | Except.error e => Except.error e
    | Except.ok files =>
      let ext := extractAll env cfg sanitize nowClock files
      let maxLM := files.foldl (fun m f => maxUpdate m f.lastModified) none
      let fieldnames := sortStrings ext.2
      Except.ok ({ header := fieldnames,
                   rows := ext.1.map (fun r => fieldnames.map (fun c => dlookup r c)) },
                 dictInsert tlm tableName maxLM)

/-- Rendering `datetime.isoformat`, modelled as an injection of the timestamp into a
string (no claim inspects its shape). -/
def isoformat (t : Nat) : String := toString t

/-- Model of `FastSyncTapS3Csv.fetch_current_incremental_key_pos`: returns
`{'modified_since': tlm[table].isoformat()}` when the table is a key of
`tables_last_modified`, `{}` otherwise; when the stored value is `None`
(an empty run), `None.isoformat()` raises `AttributeError`. -/
def fetchCurrentIncrementalKeyPos (tlm : List (String × Option Nat)) (table : String) :
    Except Exc (List (String × String)) :=
  match dlookup tlm table with
  | none => Except.ok []
  | some none => Except.error (Exc.attributeError "NoneType object has no attribute isoformat")
  | some (some t) => Except.ok [("modified_since", isoformat t)]

/-- Which exceptions `retry_pattern` retries: exactly botocore's
`ClientError` (lines 19-24). -/
def isClientError : Exc → Bool
  | .clientError _ => true
  | _ => false

/-- Model of `backoff.on_exception(backoff.expo, ClientError, max_tries=5)`: run the
call, re-invoking it only on `ClientError` while retry budget remains;
returns the final outcome together with the number of attempts made.
`fuel` is the remaining retry budget and `i` the zero-based attempt index. -/
def retryExec {α : Type} (f : Nat → Except Exc α) : Nat → Nat → Except Exc α × Nat
  | fuel, i =>
    match f i with
    | Except.ok a => (Except.ok a, i + 1)
    | Except.error e =>
      match fuel with
      | 0 => (Except.error e, i + 1)
      | n + 1 => if isClientError e then retryExec f n (i + 1) else (Except.error e, i + 1)

/-- The configured policy: `max_tries=5`, i.e. one initial attempt plus at
most four retries. -/
def retryPolicyRun {α : Type} (f : Nat → Except Exc α) : Except Exc α × Nat :=
  retryExec f 4 0

/-- Substring occurrence on character lists (needle occurs somewhere). -/
def listHasSub (needle : List Char) : List Char → Bool
  | [] => needle.isEmpty
  | c :: t => needle.isPrefixOf (c :: t) || listHasSub needle t

/-- Whether `needle` occurs as a substring of `hay`. -/
def strContains (hay needle : String) : Bool := listHasSub needle.data hay.data

/-- The object filter of the claims: positive size, key found by the search,
and strictly newer than the watermark when one is given. -/
def acceptPred (search : String → Bool) (ms : Option Nat) (o : S3Object) : Bool :=
  decide (0 < o.size) && search o.key && msLtB ms o.lastModified

/-- Objects counted as matched by the scan (positive size and key found by
the search — independent of `modified_since`). -/
def matchPred (search : String → Bool) (o : S3Object) : Bool :=
  decide (0 < o.size) && search o.key

/-- Objects counted as unmatched by the scan (empty, or key not found). -/
def unmatchPred (search : String → Bool) (o : S3Object) : Bool :=
  decide (o.size = 0) || !(search o.key)


/-! ### Association-list (Python dict) lemmas -/

theorem dlookup_append_some {V : Type} {a : List (String × V)} {k : String} {v : V}
    (b : List (String × V)) (h : dlookup a k = some v) : dlookup (a ++ b) k = some v := by
  induction a with
  | nil => simp [dlookup] at h
  | cons p t ih =>
    cases hpk : p.1 == k
    · simp only [dlookup, hpk] at h
      simp only [List.cons_append, dlookup, hpk, if_false, Bool.false_eq_true]
      exact ih h
    · simp only [dlookup, hpk, if_true] at h
      simp only [List.cons_append, dlookup, hpk, if_true]
      exact h

theorem dlookup_append_none {V : Type} {a : List (String × V)} {k : String}
    (b : List (String × V)) (h : dlookup a k = none) : dlookup (a ++ b) k = dlookup b k := by
  induction a with
  | nil => rfl
  | cons p t ih =>
    cases hpk : p.1 == k
    · simp only [dlookup, hpk] at h
      simp only [List.cons_append, dlookup, hpk, if_false, Bool.false_eq_true]
      exact ih h
    · simp only [dlookup, hpk, if_true] at h
      exact absurd h (by simp)

theorem dlookup_eq_none_of_any_eq_false {V : Type} {d : List (String × V)} {k : String}
    (h : d.any (fun p => p.1 == k) = false) : dlookup d k = none := by
  induction d with
  | nil => rfl
  | cons p t ih =>
    simp only [List.any_cons, Bool.or_eq_false_iff] at h
    simp [dlookup, h.1, ih h.2]

theorem mem_dkeys_iff_isSome {V : Type} (d : List (String × V)) (k : String) :
    k ∈ dkeys d ↔ (dlookup d k).isSome = true := by
  induction d with
  | nil => simp [dkeys, dlookup]
  | cons p t ih =>
    cases hpk : p.1 == k
    · have hne : ¬ k = p.1 := fun hkp => by simp [hkp] at hpk
      simp [dkeys, dlookup, hpk, hne] at ih ⊢
      exact ih
    · have he : p.1 = k := by simpa using hpk
      simp [dkeys, dlookup, hpk, he]

theorem dlookup_dictUnion_right {V : Type} {b : List (String × V)} {k : String} {v : V}
    (a : List (String × V)) (h : dlookup b k = some v) : dlookup (dictUnion a b) k = some v := by
  unfold dictUnion
  have hfa : dlookup (a.filter (fun p => (dlookup b p.1).isNone)) k = none := by
    induction a with
    | nil => rfl
    | cons p t ih =>
      by_cases hp : (dlookup b p.1).isNone = true
      · cases hpk : p.1 == k
        · simp only [List.filter_cons, hp, if_true, dlookup, hpk, if_false, Bool.false_eq_true]
          exact ih
        · have he : p.1 = k := by simpa using hpk
          rw [he, h] at hp
          simp at hp
      · simp only [List.filter_cons, hp, if_false, Bool.false_eq_true]
        exact ih
  rw [dlookup_append_none b hfa]
  exact h

theorem dlookup_dictUnion_left {V : Type} {b : List (String × V)} {k : String}
    (a : List (String × V)) (h : dlookup b k = none) : dlookup (dictUnion a b) k = dlookup a k := by
  unfold dictUnion
  induction a with
  | nil => simpa [dlookup] using h
  | cons p t ih =>
    cases hpk : p.1 == k
    · by_cases hp : (dlookup b p.1).isNone = true
      · simp only [List.filter_cons, hp, if_true, List.cons_append, dlookup, hpk, if_false,
          Bool.false_eq_true]
        exact ih
      · simp only [List.filter_cons, hp, if_false, dlookup, hpk, Bool.false_eq_true]
        exact ih
    · have he : p.1 = k := by simpa using hpk
      have hp : (dlookup b p.1).isNone = true := by rw [he, h]; rfl
      simp [List.filter_cons, hp, dlookup, hpk]

theorem mem_dkeys_dictUnion {V : Type} (a b : List (String × V)) (k : String) :
    k ∈ dkeys (dictUnion a b) ↔ k ∈ dkeys a ∨ k ∈ dkeys b := by
  cases hb : dlookup b k with
  | some v =>
    have h1 : dlookup (dictUnion a b) k = some v := dlookup_dictUnion_right a hb
    have hkb : k ∈ dkeys b := (mem_dkeys_iff_isSome b k).mpr (by simp [hb])
    simp [mem_dkeys_iff_isSome, h1, hkb]
  | none =>
    have h1 := dlookup_dictUnion_left a hb
    have hkb : ¬ k ∈ dkeys b := by simp [mem_dkeys_iff_isSome, hb]
    simp [mem_dkeys_iff_isSome, h1, hkb]

theorem dlookup_map_update_of_any {V : Type} {d : List (String × V)} {k : String} (v : V)
    (h : d.any (fun p => p.1 == k) = true) :
    dlookup (d.map (fun p => if p.1 == k then (k, v) else p)) k = some v := by
  induction d with
  | nil => simp at h
  | cons p t ih =>
    cases hpk : p.1 == k
    · simp only [List.any_cons, hpk, Bool.false_or] at h
      simp only [List.map_cons, hpk, if_false, dlookup, Bool.false_eq_true]
      exact ih h
    · simp [dlookup, hpk]

theorem dlookup_dictInsert_self {V : Type} (d : List (String × V)) (k : String) (v : V) :
    dlookup (dictInsert d k v) k = some v := by
  unfold dictInsert
  cases h : d.any (fun p => p.1 == k)
  · simp only [Bool.false_eq_true, if_false]
    rw [dlookup_append_none _ (dlookup_eq_none_of_any_eq_false h)]
    simp [dlookup]
  · simp only [if_true]
    exact dlookup_map_update_of_any v h

theorem mem_dkeys_dictInsert {V : Type} (d : List (String × V)) (k k2 : String) (v : V) :
    k2 ∈ dkeys (dictInsert d k v) ↔ k2 = k ∨ k2 ∈ dkeys d := by
  unfold dictInsert
  cases h : d.any (fun p => p.1 == k)
  · simp only [Bool.false_eq_true, if_false, dkeys, List.map_append, List.map_cons,
      List.map_nil, List.mem_append, List.mem_cons, List.not_mem_nil, or_false]
    exact or_comm
  · simp only [if_true]
    have hkeys : dkeys (d.map (fun p => if p.1 == k then (k, v) else p)) = dkeys d := by
      unfold dkeys
      rw [List.map_map]
      apply List.map_congr_left
      intro p _
      cases hpk : p.1 == k
      · have hne : ¬ p.1 = k := by simpa using hpk
        simp [hne]
      · have he : p.1 = k := by simpa using hpk
        simp [Function.comp, hpk, he]
    rw [hkeys]
    have hk : k ∈ dkeys d := by
      rcases List.any_eq_true.mp h with ⟨p, hp, hpk⟩
      have he : p.1 = k := by simpa using hpk
      exact he ▸ List.mem_map_of_mem Prod.fst hp
    constructor
    · exact Or.inr
    · rintro (rfl | hm)
      · exact hk
      · exact hm

/-! ### Substring lemmas -/

theorem isPrefixOf_append_ext (n x y : List Char) (h : n.isPrefixOf x = true) :
    n.isPrefixOf (x ++ y) = true := by
  induction n generalizing x with
  | nil => simp [List.isPrefixOf]
  | cons a as ih =>
    cases x with
    | nil => simp [List.isPrefixOf] at h
    | cons b bs =>
      simp only [List.isPrefixOf, List.cons_append, Bool.and_eq_true] at h ⊢
      exact ⟨h.1, ih bs h.2⟩

theorem isPrefixOf_refl_char (l : List Char) : l.isPrefixOf l = true := by
  induction l with
  | nil => rfl
  | cons a as ih => simp [List.isPrefixOf, ih]

theorem listHasSub_nil (h : List Char) : listHasSub [] h = true := by
  cases h <;> simp [listHasSub, List.isPrefixOf]

theorem listHasSub_refl (l : List Char) : listHasSub l l = true := by
  cases l with
  | nil => rfl
  | cons c t => simp [listHasSub, isPrefixOf_refl_char]

theorem listHasSub_append_r (n la lb : List Char) (h : listHasSub n lb = true) :
    listHasSub n (la ++ lb) = true := by
  induction la with
  | nil => simpa using h
  | cons c t ih => simp [listHasSub, ih]

theorem listHasSub_append_l (n la lb : List Char) (h : listHasSub n la = true) :
    listHasSub n (la ++ lb) = true := by
  induction la with
  | nil =>
    have hn : n = [] := by
      cases n with
      | nil => rfl
      | cons a as => simp [listHasSub] at h
    subst hn
    simpa using listHasSub_nil lb
  | cons c t ih =>
    simp only [listHasSub, Bool.or_eq_true] at h
    rcases h with h | h
    · simp only [List.cons_append, listHasSub, Bool.or_eq_true]
      exact Or.inl (isPrefixOf_append_ext _ _ lb h)
    · simp only [List.cons_append, listHasSub, Bool.or_eq_true]
      exact Or.inr (ih h)

theorem strContains_self (s : String) : strContains s s = true := listHasSub_refl s.data

theorem strContains_empty (h : String) : strContains h "" = true := listHasSub_nil h.data

theorem strContains_append_left (a b n : String) (h : strContains a n = true) :
    strContains (a ++ b) n = true := by
  unfold strContains at h ⊢
  rw [String.data_append]
  exact listHasSub_append_l _ _ _ h

theorem strContains_append_right (a b n : String) (h : strContains b n = true) :
    strContains (a ++ b) n = true := by
  unfold strContains at h ⊢
  rw [String.data_append]
  exact listHasSub_append_r _ _ _ h

/-! ### Scan-loop lemmas -/

theorem scanStep_accepted (search : String → Bool) (ms : Option Nat) (st : ScanState)
    (o : S3Object) :
    (scanStep search ms st o).accepted =
      st.accepted ++
        (if acceptPred search ms o then [(⟨o.key, o.lastModified⟩ : AcceptedFile)] else []) := by
  unfold scanStep acceptPred
  rcases Nat.eq_zero_or_pos o.size with h0 | h0
  · simp [h0]
  · have hne : ¬ o.size = 0 := Nat.pos_iff_ne_zero.mp h0 ∘ Eq.symm ∘ Eq.symm
    cases hs : search o.key
    · simp [hne, hs]
    · cases hm : msLtB ms o.lastModified
      · simp [hne, hs, hm]
      · simp [hne, hs, hm, h0]

theorem scanStep_matched (search : String → Bool) (ms : Option Nat) (st : ScanState)
    (o : S3Object) :
    (scanStep search ms st o).matched =
      st.matched + (if matchPred search o then 1 else 0) := by
  unfold scanStep matchPred
  rcases Nat.eq_zero_or_pos o.size with h0 | h0
  · simp [h0]
  · have hne : ¬ o.size = 0 := Nat.pos_iff_ne_zero.mp h0 ∘ Eq.symm ∘ Eq.symm
    cases hs : search o.key
    · simp [hne, hs]
    · cases hm : msLtB ms o.lastModified
      · simp [hne, hs, hm, h0]
      · simp [hne, hs, hm, h0]

theorem scanStep_unmatched (search : String → Bool) (ms : Option Nat) (st : ScanState)
    (o : S3Object) :
    (scanStep search ms st o).unmatched =
      st.unmatched + (if unmatchPred search o then 1 else 0) := by
  unfold scanStep unmatchPred
  rcases Nat.eq_zero_or_pos o.size with h0 | h0
  · simp [h0]
  · have hne : ¬ o.size = 0 := Nat.pos_iff_ne_zero.mp h0 ∘ Eq.symm ∘ Eq.symm
    cases hs : search o.key
    · simp [hne, hs]
    · cases hm : msLtB ms o.lastModified
      · simp [hne, hs, hm]
      · simp [hne, hs, hm]

theorem foldl_scanStep_accepted (search : String → Bool) (ms : Option Nat)
    (l : List S3Object) (st : ScanState) :
    (l.foldl (scanStep search ms) st).accepted =
      st.accepted ++
        (l.filter (acceptPred search ms)).map
          (fun o => (⟨o.key, o.lastModified⟩ : AcceptedFile)) := by
  induction l generalizing st with
  | nil => simp
  | cons o t ih =>
    rw [List.foldl_cons, ih, scanStep_accepted]
    cases h : acceptPred search ms o <;> simp [List.filter_cons, h]

theorem foldl_scanStep_matched (search : String → Bool) (ms : Option Nat)
    (l : List S3Object) (st : ScanState) :
    (l.foldl (scanStep search ms) st).matched = st.matched + l.countP (matchPred search) := by
  induction l generalizing st with
  | nil => simp
  | cons o t ih =>
    rw [List.foldl_cons, ih, scanStep_matched, List.countP_cons]
    cases h : matchPred search o <;> simp [h] <;> omega

theorem foldl_scanStep_unmatched (search : String → Bool) (ms : Option Nat)
    (l : List S3Object) (st : ScanState) :
    (l.foldl (scanStep search ms) st).unmatched =
      st.unmatched + l.countP (unmatchPred search) := by
  induction l generalizing st with
  | nil => simp
  | cons o t ih =>
    rw [List.foldl_cons, ih, scanStep_unmatched, List.countP_cons]
    cases h : unmatchPred search o <;> simp [h] <;> omega

theorem yieldedFiles_eq (search : String → Bool) (ms : Option Nat) (listing : List S3Object) :
    yieldedFiles search ms listing =
      (listing.filter (acceptPred search ms)).map
        (fun o => (⟨o.key, o.lastModified⟩ : AcceptedFile)) := by
  unfold yieldedFiles scanAll
  rw [foldl_scanStep_accepted]
  rfl

theorem scanAll_matched (search : String → Bool) (ms : Option Nat) (listing : List S3Object) :
    (scanAll search ms listing).matched = listing.countP (matchPred search) := by
  unfold scanAll
  rw [foldl_scanStep_matched]
  simp

theorem scanAll_unmatched (search : String → Bool) (ms : Option Nat) (listing : List S3Object) :
    (scanAll search ms listing).unmatched = listing.countP (unmatchPred search) := by
  unfold scanAll
  rw [foldl_scanStep_unmatched]
  simp

theorem mem_yieldedFiles_msLtB (search : String → Bool) (ms : Option Nat)
    (listing : List S3Object) (f : AcceptedFile) (hf : f ∈ yieldedFiles search ms listing) :
    msLtB ms f.lastModified = true := by
  rw [yieldedFiles_eq] at hf
  rcases List.mem_map.mp hf with ⟨o, ho, rfl⟩
  have hp := (List.mem_filter.mp ho).2
  unfold acceptPred at hp
  simp only [Bool.and_eq_true] at hp
  exact hp.2

/-! ### Running-maximum lemmas -/

theorem maxUpdate_some (m x : Nat) : maxUpdate (some m) x = some (Nat.max m x) := by
  unfold maxUpdate
  rcases Nat.lt_or_ge m x with h | h
  · simp [h, Nat.max_eq_right (Nat.le_of_lt h)]
  · simp [Nat.not_lt.mpr h, Nat.max_eq_left h]

theorem foldl_maxUpdate_some (l : List Nat) (m : Nat) :
    l.foldl maxUpdate (some m) = some (l.foldl Nat.max m) := by
  induction l generalizing m with
  | nil => rfl
  | cons x t ih => rw [List.foldl_cons, maxUpdate_some, ih, List.foldl_cons]

theorem foldl_maxUpdate_cons (x : Nat) (t : List Nat) :
    (x :: t).foldl maxUpdate none = some (t.foldl Nat.max x) := by
  rw [List.foldl_cons]
  exact foldl_maxUpdate_some t x

theorem le_foldl_max (t : List Nat) (m : Nat) : m ≤ t.foldl Nat.max m := by
  induction t generalizing m with
  | nil => exact Nat.le_refl m
  | cons x s ih =>
    rw [List.foldl_cons]
    exact Nat.le_trans (Nat.le_max_left m x) (ih (Nat.max m x))

theorem foldl_max_mem (t : List Nat) (m : Nat) :
    t.foldl Nat.max m = m ∨ t.foldl Nat.max m ∈ t := by
  induction t generalizing m with
  | nil => exact Or.inl rfl
  | cons x s ih =>
    rw [List.foldl_cons]
    rcases ih (Nat.max m x) with h | h
    · rcases Nat.le_total m x with h2 | h2
      · have h3 : Nat.max m x = x := Nat.max_eq_right h2
        exact Or.inr (by rw [h, h3]; exact List.mem_cons_self x s)
      · have h3 : Nat.max m x = m := Nat.max_eq_left h2
        exact Or.inl (h.trans h3)
    · exact Or.inr (List.mem_cons_of_mem x h)

theorem foldl_max_ub (t : List Nat) (y : Nat) : ∀ m : Nat, y ∈ t → y ≤ t.foldl Nat.max m := by
  induction t with
  | nil => intro m hy; cases hy
  | cons x s ih =>
    intro m hy
    rw [List.foldl_cons]
    rcases List.mem_cons.mp hy with h | h
    · subst h
      exact Nat.le_trans (Nat.le_max_right m y) (le_foldl_max s _)
    · exact ih _ h

/-! ### Record-extraction invariants -/

theorem dlookup_custom_lineno (bucket s3Path : String) (lineno : Nat) (now : String) :
    dlookup (customColumns bucket s3Path lineno now) "_sdc_source_lineno" =
      some (Value.nat lineno) := rfl

theorem dlookup_makeRecord_lineno (sanitize : String → String) (bucket s3Path : String)
    (lineno : Nat) (now : String) (row : List (String × Value)) :
    dlookup (makeRecord sanitize bucket s3Path lineno now row) "_sdc_source_lineno" =
      some (Value.nat lineno) :=
  dlookup_dictUnion_right _ (dlookup_custom_lineno bucket s3Path lineno now)

/-- The line-number invariant of a record list: the i-th record carries
line number i + 1. -/
def LinenoInv (recs : List (List (String × Value))) : Prop :=
  ∀ i (h : i < recs.length),
    dlookup (recs.get ⟨i, h⟩) "_sdc_source_lineno" = some (Value.nat (i + 1))

theorem linenoInv_append {recs : List (List (String × Value))} {r : List (String × Value)}
    (h : LinenoInv recs)
    (hr : dlookup r "_sdc_source_lineno" = some (Value.nat (recs.length + 1))) :
    LinenoInv (recs ++ [r]) := by
  intro i hi
  have hi2 : i < recs.length + 1 := by simpa using hi
  rcases Nat.lt_or_ge i recs.length with h1 | h1
  · rw [List.get_append i h1]
    exact h i h1
  · have hieq : i = recs.length := by omega
    subst hieq
    have hget : (recs ++ [r]).get ⟨recs.length, hi⟩ = r := by
      have := List.getElem_concat_length recs r recs.length rfl (by simpa using hi)
      simpa [List.get_eq_getElem] using this
    rw [hget]
    exact hr

theorem getFileRecords_lineno (bucket s3Path : String) (sanitize : String → String)
    (nowClock : Nat → String) (rows : List (List (String × Value)))
    (acc : List (List (String × Value)) × List String) (h : LinenoInv acc.1) :
    LinenoInv (getFileRecords bucket s3Path sanitize nowClock rows acc).1 := by
  induction rows generalizing acc with
  | nil => exact h
  | cons row rest ih =>
    unfold getFileRecords
    rw [List.foldl_cons]
    apply ih
    exact linenoInv_append h (dlookup_makeRecord_lineno _ _ _ _ _ _)

theorem extractAll_lineno (env : S3Env) (cfg : ConnectionConfig) (sanitize : String → String)
    (nowClock : Nat → String) (files : List AcceptedFile) :
    LinenoInv (extractAll env cfg sanitize nowClock files).1 := by
  unfold extractAll
  have haux : ∀ (fs : List AcceptedFile) (acc : List (List (String × Value)) × List String),
      LinenoInv acc.1 →
      LinenoInv (fs.foldl (fun a f => getFileRecords cfg.bucket f.key sanitize nowClock
        (env.contents f.key) a) acc).1 := by
    intro fs
    induction fs with
    | nil => intro acc h; exact h
    | cons f rest ih =>
      intro acc h
      rw [List.foldl_cons]
      exact ih _ (getFileRecords_lineno _ _ _ _ _ _ h)
  exact haux files ([], []) (fun i hi => absurd hi (by simp))

/-! ### Header-accumulator and sorting lemmas -/

theorem mem_pySetAdd (s : List String) (k k2 : String) :
    k2 ∈ pySetAdd s k ↔ k2 ∈ s ∨ k2 = k := by
  unfold pySetAdd
  by_cases h : k ∈ s
  · simp only [h, if_true]
    constructor
    · exact Or.inl
    · rintro (h2 | rfl)
      · exact h2
      · exact h
  · simp [h]

theorem mem_pySetUpdate (s ks : List String) (k : String) :
    k ∈ pySetUpdate s ks ↔ k ∈ s ∨ k ∈ ks := by
  unfold pySetUpdate
  induction ks generalizing s with
  | nil => simp
  | cons x t ih =>
    rw [List.foldl_cons, ih, mem_pySetAdd]
    simp only [List.mem_cons]
    tauto

theorem nodup_pySetAdd (s : List String) (k : String) (h : s.Nodup) :
    (pySetAdd s k).Nodup := by
  unfold pySetAdd
  by_cases hk : k ∈ s
  · simp [hk, h]
  · simp only [hk, if_false]
    rw [List.nodup_append]
    refine ⟨h, List.nodup_singleton k, ?_⟩
    intro a ha hak
    rw [List.mem_singleton.mp hak] at ha
    exact hk ha

theorem nodup_pySetUpdate (s ks : List String) (h : s.Nodup) : (pySetUpdate s ks).Nodup := by
  unfold pySetUpdate
  induction ks generalizing s with
  | nil => exact h
  | cons x t ih =>
    rw [List.foldl_cons]
    exact ih _ (nodup_pySetAdd _ _ h)

theorem charListLeB_iff_not_lt : ∀ as bs : List Char, charListLeB as bs = true ↔ ¬ bs < as := by
  intro as
  induction as with
  | nil =>
    intro bs
    refine iff_of_true rfl ?_
    intro h
    cases h
  | cons a as2 ih =>
    intro bs
    cases bs with
    | nil =>
      refine iff_of_false (by simp [charListLeB]) ?_
      intro hno
      exact hno (List.nil_lt_cons a as2)
    | cons b bs2 =>
      unfold charListLeB
      by_cases hab : a < b
      · rw [if_pos hab]
        refine iff_of_true rfl ?_
        intro hlt
        cases hlt with
        | cons h3 => exact lt_irrefl _ hab
        | rel hba => exact lt_asymm hba hab
      · rw [if_neg hab]
        by_cases hba : b < a
        · rw [if_pos hba]
          refine iff_of_false (by simp) ?_
          intro hno
          exact hno (List.Lex.rel hba)
        · rw [if_neg hba]
          have heq : a = b := le_antisymm (le_of_not_lt hba) (le_of_not_lt hab)
          subst heq
          rw [ih bs2]
          constructor
          · intro h hlt
            cases hlt with
            | cons h3 => exact h h3
            | rel hr => exact lt_irrefl _ hr
          · intro h hlt
            exact h (List.Lex.cons hlt)

theorem strLeB_iff_le (a b : String) : strLeB a b = true ↔ a ≤ b := by
  rw [String.le_iff_toList_le, ← not_lt]
  exact charListLeB_iff_not_lt a.data b.data

theorem mem_insertStr (x : String) (l : List String) (k : String) :
    k ∈ insertStr x l ↔ k = x ∨ k ∈ l := by
  induction l with
  | nil => simp [insertStr]
  | cons y t ih =>
    unfold insertStr
    cases h : strLeB x y
    · simp only [h, Bool.false_eq_true, if_false, List.mem_cons, ih]
      tauto
    · simp [h, List.mem_cons]

theorem mem_sortStrings (l : List String) (k : String) :
    k ∈ sortStrings l ↔ k ∈ l := by
  induction l with
  | nil => simp [sortStrings]
  | cons x t ih =>
    unfold sortStrings
    rw [mem_insertStr, ih, List.mem_cons]

theorem pairwise_insertStr (x : String) (l : List String)
    (h : l.Pairwise (· ≤ ·)) : (insertStr x l).Pairwise (· ≤ ·) := by
  induction l with
  | nil => simp [insertStr]
  | cons y t ih =>
    unfold insertStr
    rcases List.pairwise_cons.mp h with ⟨hy, ht⟩
    cases hxy : strLeB x y
    · have hnxy : ¬ x ≤ y := fun hle => by
        rw [(strLeB_iff_le x y).mpr hle] at hxy
        exact absurd hxy (by simp)
      have hyx : y ≤ x := le_of_not_le hnxy
      simp only [hxy, Bool.false_eq_true, if_false]
      refine List.Pairwise.cons ?_ (ih ht)
      intro b hb
      rcases (mem_insertStr x t b).mp hb with rfl | hbt
      · exact hyx
      · exact hy b hbt
    · have hxyle : x ≤ y := (strLeB_iff_le x y).mp hxy
      simp only [hxy, if_true]
      refine List.Pairwise.cons ?_ h
      intro b hb
      rcases List.mem_cons.mp hb with rfl | hbt
      · exact hxyle
      · exact le_trans hxyle (hy b hbt)

theorem pairwise_sortStrings (l : List String) :
    (sortStrings l).Pairwise (· ≤ ·) := by
  induction l with
  | nil => simp [sortStrings]
  | cons x t ih => exact pairwise_insertStr x _ ih

theorem nodup_insertStr (x : String) (l : List String) (hx : ¬ x ∈ l) (h : l.Nodup) :
    (insertStr x l).Nodup := by
  induction l with
  | nil => simp [insertStr]
  | cons y t ih =>
    unfold insertStr
    rcases List.pairwise_cons.mp h with ⟨hy, ht⟩
    cases hxy : strLeB x y
    · simp only [hxy, Bool.false_eq_true, if_false]
      have hx2 : ¬ x ∈ t := fun hc => hx (List.mem_cons_of_mem y hc)
      refine List.Pairwise.cons ?_ (ih hx2 ht)
      intro b hb
      rcases (mem_insertStr x t b).mp hb with rfl | hbt
      · exact fun hyb => hx (hyb ▸ List.mem_cons_self y t)
      · exact hy b hbt
    · simp only [hxy, if_true]
      exact List.Pairwise.cons (fun b hb hxb => hx (hxb ▸ hb)) h

theorem nodup_sortStrings (l : List String) (h : l.Nodup) : (sortStrings l).Nodup := by
  induction l with
  | nil => simp [sortStrings]
  | cons x t ih =>
    rcases List.pairwise_cons.mp h with ⟨hx, ht⟩
    unfold sortStrings
    apply nodup_insertStr
    · rw [mem_sortStrings]
      intro hc
      exact (hx x hc) rfl
    · exact ih ht

/-- The header invariant of the extraction accumulator: the `headers` set
is duplicate-free and holds exactly the column names of the accumulated
records. -/
def HeaderInv (acc : List (List (String × Value)) × List String) : Prop :=
  acc.2.Nodup ∧ ∀ k, k ∈ acc.2 ↔ ∃ r ∈ acc.1, k ∈ dkeys r

theorem getFileRecords_headerInv (bucket s3Path : String) (sanitize : String → String)
    (nowClock : Nat → String) (rows : List (List (String × Value)))
    (acc : List (List (String × Value)) × List String) (h : HeaderInv acc) :
    HeaderInv (getFileRecords bucket s3Path sanitize nowClock rows acc) := by
  induction rows generalizing acc with
  | nil => exact h
  | cons row rest ih =>
    unfold getFileRecords
    rw [List.foldl_cons]
    apply ih
    constructor
    · exact nodup_pySetUpdate _ _ h.1
    · intro k
      rw [mem_pySetUpdate]
      constructor
      · rintro (hk | hk)
        · rcases (h.2 k).mp hk with ⟨r, hr, hkr⟩
          exact ⟨r, List.mem_append_left _ hr, hkr⟩
        · exact ⟨_, List.mem_append_right _ (List.mem_singleton_self _), hk⟩
      · rintro ⟨r, hr, hkr⟩
        rcases List.mem_append.mp hr with hr2 | hr2
        · exact Or.inl ((h.2 k).mpr ⟨r, hr2, hkr⟩)
        · rw [List.mem_singleton.mp hr2] at hkr
          exact Or.inr hkr

theorem extractAll_headerInv (env : S3Env) (cfg : ConnectionConfig)
    (sanitize : String → String) (nowClock : Nat → String) (files : List AcceptedFile) :
    HeaderInv (extractAll env cfg sanitize nowClock files) := by
  unfold extractAll
  have haux : ∀ (fs : List AcceptedFile) (acc : List (List (String × Value)) × List String),
      HeaderInv acc →
      HeaderInv (fs.foldl (fun a f => getFileRecords cfg.bucket f.key sanitize nowClock
        (env.contents f.key) a) acc) := by
    intro fs
    induction fs with
    | nil => intro acc h; exact h
    | cons f rest ih =>
      intro acc h
      rw [List.foldl_cons]
      exact ih _ (getFileRecords_headerInv _ _ _ _ _ _ h)
  exact haux files ([], []) ⟨List.nodup_nil, by simp⟩

/-! ### Record key-set lemmas -/

theorem mem_dkeys_foldl_dictInsert (sanitize : String → String) (row : List (String × Value))
    (d0 : List (String × Value)) (k : String) :
    k ∈ dkeys (row.foldl (fun d p => dictInsert d (sanitize p.1) p.2) d0) ↔
      k ∈ dkeys d0 ∨ k ∈ row.map (fun p => sanitize p.1) := by
  induction row generalizing d0 with
  | nil => simp
  | cons p t ih =>
    rw [List.foldl_cons, ih, mem_dkeys_dictInsert]
    simp only [List.map_cons, List.mem_cons]
    tauto

theorem mem_dkeys_buildNewRow (sanitize : String → String) (row : List (String × Value))
    (k : String) :
    k ∈ dkeys (buildNewRow sanitize row) ↔ k ∈ row.map (fun p => sanitize p.1) := by
  unfold buildNewRow
  rw [mem_dkeys_foldl_dictInsert]
  simp [dkeys]

theorem dkeys_customColumns (bucket s3Path : String) (lineno : Nat) (now : String) :
    dkeys (customColumns bucket s3Path lineno now) = injectedNames := rfl

/-! ### Message-containment lemmas -/

theorem noFilesMsg_contains_bucket (bucket : String) (pfx : Option String) (pat : String) :
    strContains (noFilesMsg bucket pfx pat) bucket = true := by
  unfold noFilesMsg
  cases pyTruthy pfx
  · simp only [Bool.false_eq_true, if_false]
    apply strContains_append_left
    apply strContains_append_left
    apply strContains_append_left
    exact strContains_append_right _ _ _ (strContains_self bucket)
  · simp only [if_true]
    apply strContains_append_left
    apply strContains_append_left
    apply strContains_append_left
    apply strContains_append_left
    apply strContains_append_left
    exact strContains_append_right _ _ _ (strContains_self bucket)

theorem noFilesMsg_contains_pat (bucket : String) (pfx : Option String) (pat : String) :
    strContains (noFilesMsg bucket pfx pat) pat = true := by
  unfold noFilesMsg
  cases pyTruthy pfx
  · simp only [Bool.false_eq_true, if_false]
    apply strContains_append_left
    exact strContains_append_right _ _ _ (strContains_self pat)
  · simp only [if_true]
    apply strContains_append_left
    exact strContains_append_right _ _ _ (strContains_self pat)

theorem noFilesMsg_contains_pfx (bucket p pat : String) :
    strContains (noFilesMsg bucket (some p) pat) p = true := by
  unfold noFilesMsg
  cases hp : p == ""
  · simp only [pyTruthy, hp, Bool.not_false, if_true]
    apply strContains_append_left
    apply strContains_append_left
    apply strContains_append_left
    exact strContains_append_right _ _ _ (strContains_self p)
  · have he : p = "" := by simpa using hp
    subst he
    simp only [pyTruthy, Bool.not_true, Bool.false_eq_true, if_false]
    exact strContains_empty _

/-! ### Claims -/

/-- Claim C2: for every listed object, the filter in
`get_input_files_for_table` yields it iff its size is greater than 0, the
pattern search finds a match in its key, and `modified_since` is `None` or
strictly less than its `last_modified` (first conjunct — `acceptPred`
unfolds to exactly these three tests); the files returned on success are
exactly that yield (second conjunct); and every yielded file is strictly
newer than the watermark, so an object with `last_modified ≤ modified_since`
is never yielded by any run using that watermark (third conjunct). -/
theorem c2_filter_characterization (search : String → Bool) (ms : Option Nat)
    (listing : List S3Object) :
    yieldedFiles search ms listing =
      (listing.filter (acceptPred search ms)).map
        (fun o => (⟨o.key, o.lastModified⟩ : AcceptedFile))
    ∧ (∀ bucket ts files, ts.searchPatternCompiled = some search →
        getInputFilesForTable bucket ts listing ms = Except.ok files →
        files = yieldedFiles search ms listing)
    ∧ (∀ m f, ms = some m → f ∈ yieldedFiles search ms listing → m < f.lastModified) := by
  refine ⟨yieldedFiles_eq search ms listing, ?_, ?_⟩
  · intro bucket ts files hc hok
    unfold getInputFilesForTable at hok
    rw [hc] at hok
    by_cases hm : (scanAll search ms listing).matched = 0
    · simp [hm] at hok
    · simp only [hm, if_false] at hok
      exact (Except.ok.injEq _ _ ▸ hok).symm
  · intro m f hms hf
    have hb := mem_yieldedFiles_msLtB search ms listing f hf
    rw [hms] at hb
    simpa [msLtB] using hb

/-- Witness for C2 at a concrete input: with watermark 3, the object with
last_modified 5 is yielded and the theorem gives 3 < 5. -/
theorem c2_filter_characterization_witness :
    (3 : Nat) < (AcceptedFile.mk "k" 5).lastModified :=
  (c2_filter_characterization (fun _ => true) (some 3) [⟨"k", 1, 5⟩]).2.2 3 ⟨"k", 5⟩ rfl
    (by decide)

/-- Claim C3: with a valid pattern, if zero objects matched the pattern
across the whole listing, `get_input_files_for_table` raises the fatal
configuration error whose message names the bucket, the pattern, and the
prefix when one is set; if at least one object matched the pattern (even
when every match was excluded by `modified_since`) no error is raised and
the run completes with the yielded objects. -/
theorem c3_zero_match_fatal (bucket : String) (ts : TableSpec) (listing : List S3Object)
    (ms : Option Nat) (search : String → Bool)
    (hc : ts.searchPatternCompiled = some search) :
    ((scanAll search ms listing).matched = 0 →
      getInputFilesForTable bucket ts listing ms =
        Except.error (Exc.genericError
          (noFilesMsg bucket ts.searchPrefixOpt ts.searchPatternRaw))
      ∧ strContains (noFilesMsg bucket ts.searchPrefixOpt ts.searchPatternRaw) bucket = true
      ∧ strContains (noFilesMsg bucket ts.searchPrefixOpt ts.searchPatternRaw)
          ts.searchPatternRaw = true
      ∧ ∀ p, ts.searchPrefixOpt = some p →
          strContains (noFilesMsg bucket ts.searchPrefixOpt ts.searchPatternRaw) p = true)
    ∧ ((scanAll search ms listing).matched ≠ 0 →
      getInputFilesForTable bucket ts listing ms =
        Except.ok (yieldedFiles search ms listing)) := by
  constructor
  · intro hm
    refine ⟨?_, noFilesMsg_contains_bucket _ _ _, noFilesMsg_contains_pat _ _ _, ?_⟩
    · unfold getInputFilesForTable
      rw [hc]
      simp [hm]
    · intro p hp
      rw [hp]
      exact noFilesMsg_contains_pfx bucket p ts.searchPatternRaw
  · intro hm
    unfold getInputFilesForTable
    rw [hc]
    simp only [hm, if_false]
    rfl

/-- Witness for C3 at a concrete input: a search matching no key makes the
run fail with the configuration error. -/
theorem c3_zero_match_fatal_witness :
    getInputFilesForTable "b" ⟨"t", some "pre", "pat", some (fun _ => false)⟩
      [⟨"k", 3, 5⟩] none =
      Except.error (Exc.genericError (noFilesMsg "b" (some "pre") "pat")) :=
  ((c3_zero_match_fatal "b" ⟨"t", some "pre", "pat", some (fun _ => false)⟩ [⟨"k", 3, 5⟩]
    none (fun _ => false) rfl).1 (by decide)).1

/-- Claim C9: the zero-size check precedes the pattern check — `matched`
counts exactly the positive-size objects whose key the search finds, so an
empty object never contributes to `matched` even when its key matches and
is counted unmatched instead; consequently a listing in which every
key found by the search belongs to a size-0 object ends the run with the
fatal no-files-found configuration error. -/
theorem c9_empty_precedes_pattern (bucket : String) (ts : TableSpec) (listing : List S3Object)
    (ms : Option Nat) (search : String → Bool)
    (hc : ts.searchPatternCompiled = some search) :
    (scanAll search ms listing).matched = listing.countP (matchPred search)
    ∧ (scanAll search ms listing).unmatched = listing.countP (unmatchPred search)
    ∧ ((∀ o ∈ listing, search o.key = true → o.size = 0) →
        getInputFilesForTable bucket ts listing ms =
          Except.error (Exc.genericError
            (noFilesMsg bucket ts.searchPrefixOpt ts.searchPatternRaw))) := by
  refine ⟨scanAll_matched _ _ _, scanAll_unmatched _ _ _, ?_⟩
  intro hall
  have hm : (scanAll search ms listing).matched = 0 := by
    rw [scanAll_matched, List.countP_eq_zero]
    intro o ho
    unfold matchPred
    cases hs : search o.key
    · simp
    · have h0 := hall o ho hs
      simp [h0]
  unfold getInputFilesForTable
  rw [hc]
  simp [hm]

/-- Witness for C9 at a concrete input: the only key the pattern matches
belongs to an empty object, so the run fails with the configuration
error. -/
theorem c9_empty_precedes_pattern_witness :
    getInputFilesForTable "b" ⟨"t", none, "m", some (fun k => k == "m.csv")⟩
      [⟨"m.csv", 0, 5⟩, ⟨"other", 3, 5⟩] none =
      Except.error (Exc.genericError (noFilesMsg "b" none "m")) :=
  (c9_empty_precedes_pattern "b" ⟨"t", none, "m", some (fun k => k == "m.csv")⟩
    [⟨"m.csv", 0, 5⟩, ⟨"other", 3, 5⟩] none (fun k => k == "m.csv") rfl).2.2 (by decide)

/-- Claim C8: an invalid `search_pattern` makes `get_input_files_for_table`
raise a `ValueError` whose message names the table, with the same outcome
for every listing (so before — indeed independent of — any object listing),
and the retry policy does not retry it (a single attempt), while
`ClientError`, the one class the policy retries, is attempted five times. -/
theorem c8_invalid_pattern (bucket : String) (ts : TableSpec) (listing : List S3Object)
    (ms : Option Nat) (hc : ts.searchPatternCompiled = none) :
    getInputFilesForTable bucket ts listing ms =
      Except.error (Exc.valueError (invalidPatternMsg ts.tableName))
    ∧ strContains (invalidPatternMsg ts.tableName) ts.tableName = true
    ∧ getInputFilesForTable bucket ts listing ms = getInputFilesForTable bucket ts [] ms
    ∧ retryPolicyRun (fun _ => getInputFilesForTable bucket ts listing ms) =
        (Except.error (Exc.valueError (invalidPatternMsg ts.tableName)), 1)
    ∧ ∀ msg, retryPolicyRun (fun _ => (Except.error (Exc.clientError msg) :
        Except Exc (List AcceptedFile))) = (Except.error (Exc.clientError msg), 5) := by
  have herr : getInputFilesForTable bucket ts listing ms =
      Except.error (Exc.valueError (invalidPatternMsg ts.tableName)) := by
    unfold getInputFilesForTable
    rw [hc]
  have herr2 : getInputFilesForTable bucket ts [] ms =
      Except.error (Exc.valueError (invalidPatternMsg ts.tableName)) := by
    unfold getInputFilesForTable
    rw [hc]
  refine ⟨herr, ?_, herr.trans herr2.symm, ?_, ?_⟩
  · unfold invalidPatternMsg
    apply strContains_append_left
    exact strContains_append_right _ _ _ (strContains_self ts.tableName)
  · rw [show (fun _ : Nat => getInputFilesForTable bucket ts listing ms) =
        (fun _ : Nat => (Except.error (Exc.valueError (invalidPatternMsg ts.tableName)) :
          Except Exc (List AcceptedFile))) from funext (fun _ => herr)]
    rfl
  · intro msg
    rfl

/-- Witness for C8 at a concrete input: a table spec whose pattern failed
to compile yields the ValueError. -/
theorem c8_invalid_pattern_witness :
    getInputFilesForTable "b" ⟨"tbl", none, "(", none⟩ [⟨"k", 1, 2⟩] none =
      Except.error (Exc.valueError (invalidPatternMsg "tbl")) :=
  (c8_invalid_pattern "b" ⟨"tbl", none, "(", none⟩ [⟨"k", 1, 2⟩] none rfl).1

/-- Claim C7 as stated is false on the code: the single record extracted
from a one-row CSV object has no column named `_sdc_extracted_at` — the
source injects `_SDC_EXTRACTED_AT` (uppercase), likewise `_SDC_BATCHED_AT`
and `_SDC_DELETED_AT`. -/
theorem c7_counterexample :
    ((extractAll ⟨[], fun _ => [[("a", Value.str "x")]]⟩ ⟨"b", 0, []⟩ (fun s => s)
        (fun _ => "T") [⟨"f", 1⟩]).1.map
      (fun r => dlookup r "_sdc_extracted_at")) = [none] := by decide

/-- Claim C7 (amended): every record produced by the extractor contains
exactly the six injected metadata columns `_sdc_source_bucket`,
`_sdc_source_file`, `_sdc_source_lineno`, `_SDC_EXTRACTED_AT`,
`_SDC_BATCHED_AT`, `_SDC_DELETED_AT` — the last three uppercase in the
code — in addition to the sanitized source columns: a name is a column of
the record exactly when it is a sanitized source field name or one of the
six, and the six are always present. -/
theorem c7_injected_columns (sanitize : String → String) (bucket s3Path : String)
    (lineno : Nat) (now : String) (row : List (String × Value)) :
    (∀ k, k ∈ dkeys (makeRecord sanitize bucket s3Path lineno now row) ↔
        (k ∈ row.map (fun p => sanitize p.1) ∨ k ∈ injectedNames))
    ∧ (∀ k, k ∈ injectedNames →
        k ∈ dkeys (makeRecord sanitize bucket s3Path lineno now row)) := by
  have hmain : ∀ k, k ∈ dkeys (makeRecord sanitize bucket s3Path lineno now row) ↔
      (k ∈ row.map (fun p => sanitize p.1) ∨ k ∈ injectedNames) := by
    intro k
    unfold makeRecord
    rw [mem_dkeys_dictUnion, mem_dkeys_buildNewRow, dkeys_customColumns]
  exact ⟨hmain, fun k hk => (hmain k).mpr (Or.inr hk)⟩

/-- Witness for the amended C7 at a concrete input: the uppercase
`_SDC_EXTRACTED_AT` column is present in a concrete record. -/
theorem c7_injected_columns_witness :
    "_SDC_EXTRACTED_AT" ∈
      dkeys (makeRecord (fun s => s) "b" "f" 1 "T" [("a", Value.str "x")]) :=
  (c7_injected_columns (fun s => s) "b" "f" 1 "T" [("a", Value.str "x")]).2
    "_SDC_EXTRACTED_AT" (by decide)

/-- Claim C10: when a sanitized source column name collides with one of the
injected metadata column names, the injected metadata value overwrites the
source value — looking up any injected name in the final record returns
exactly the `custom_columns` binding, whatever the source row contained. -/
theorem c10_metadata_overwrites (sanitize : String → String) (bucket s3Path : String)
    (lineno : Nat) (now : String) (row : List (String × Value)) (k : String)
    (hk : k ∈ injectedNames) :
    dlookup (makeRecord sanitize bucket s3Path lineno now row) k =
      dlookup (customColumns bucket s3Path lineno now) k := by
  have hks : k ∈ dkeys (customColumns bucket s3Path lineno now) := by
    rw [dkeys_customColumns]
    exact hk
  have hsome := (mem_dkeys_iff_isSome _ k).mp hks
  rcases Option.isSome_iff_exists.mp hsome with ⟨v, hv⟩
  rw [hv]
  exact dlookup_dictUnion_right _ hv

/-- Witness for C10 at a concrete input: a source field sanitized to
`_sdc_source_bucket` is overwritten by the injected bucket name. -/
theorem c10_metadata_overwrites_witness :
    dlookup (makeRecord (fun s => s) "bkt" "f" 1 "T"
      [("_sdc_source_bucket", Value.str "evil")]) "_sdc_source_bucket" =
      some (Value.str "bkt") :=
  (c10_metadata_overwrites (fun s => s) "bkt" "f" 1 "T"
    [("_sdc_source_bucket", Value.str "evil")] "_sdc_source_bucket" (by decide)).trans
    (by decide)

/-- Claim C5: across all records produced for one table in one run, the
injected `_sdc_source_lineno` starts at 1 and increases by exactly 1 per
record, continuing across source-object boundaries: the i-th record
accumulated by the extraction loop carries line number i + 1. -/
theorem c5_lineno_monotone (env : S3Env) (cfg : ConnectionConfig) (sanitize : String → String)
    (nowClock : Nat → String) (files : List AcceptedFile) :
    ∀ i (h : i < (extractAll env cfg sanitize nowClock files).1.length),
      dlookup ((extractAll env cfg sanitize nowClock files).1.get ⟨i, h⟩)
        "_sdc_source_lineno" = some (Value.nat (i + 1)) :=
  extractAll_lineno env cfg sanitize nowClock files

/-- Witness for C5 at a concrete input: two source files with one and two
rows; the third record overall (the second row of the second file) carries
line number 3 — the counter was not reset at the file boundary. -/
theorem c5_lineno_monotone_witness :
    dlookup ((extractAll ⟨[], fun k => if k == "f1" then [[("a", Value.str "x")]]
        else [[("a", Value.str "y")], [("a", Value.str "z")]]⟩
      ⟨"b", 0, []⟩ (fun s => s) (fun _ => "T") [⟨"f1", 1⟩, ⟨"f2", 2⟩]).1.get ⟨2, by decide⟩)
      "_sdc_source_lineno" = some (Value.nat 3) :=
  c5_lineno_monotone ⟨[], fun k => if k == "f1" then [[("a", Value.str "x")]]
        else [[("a", Value.str "y")], [("a", Value.str "z")]]⟩
    ⟨"b", 0, []⟩ (fun s => s) (fun _ => "T") [⟨"f1", 1⟩, ⟨"f2", 2⟩] 2 (by decide)

/-- Claim C1 is contradicted by the code (code bug): in a run where the
only pattern-matching object is excluded by `modified_since` (no object
processed), line 67 of the source still executes
`tables_last_modified[table_name] = max_last_modified` and overwrites the
table's previous watermark with `None`; the map is not left unchanged, and
a subsequent `fetch_current_incremental_key_pos` crashes on
`None.isoformat()` instead of returning the previous value. -/
theorem c1_empty_run_overwrites_watermark :
    copyTable ⟨[⟨"a.csv", 5, 7⟩], fun _ => []⟩
      ⟨"bucket1", 10, [⟨"t", none, "a.csv", some (fun k => k == "a.csv")⟩]⟩
      (fun s => s) (fun _ => "T") "t" [("t", some 3)] =
      Except.ok (⟨[], []⟩, [("t", (none : Option Nat))])
    ∧ dlookup [("t", (none : Option Nat))] "t" ≠ some (some 3)
    ∧ fetchCurrentIncrementalKeyPos [("t", (none : Option Nat))] "t" =
        Except.error (Exc.attributeError "NoneType object has no attribute isoformat") :=
  ⟨by rfl, by decide, by rfl⟩

/-- Claim C4: when at least one object is accepted in a run, the new
watermark recorded for the table by `copy_table` equals the maximum
`last_modified` among the objects actually accepted (yielded by the
filter) in that run, and is greater than or equal to the `modified_since`
bound (the parsed `start_date`) used to filter them. -/
theorem c4_watermark_max (env : S3Env) (cfg : ConnectionConfig) (sanitize : String → String)
    (nowClock : Nat → String) (tableName : String) (tlm : List (String × Option Nat))
    (ts : TableSpec) (files : List AcceptedFile)
    (hts : findTableSpecByName cfg tableName = some ts)
    (hfiles : getInputFilesForTable cfg.bucket ts env.listing (some cfg.startDate) =
      Except.ok files)
    (hne : files ≠ []) :
    ∃ out tlm2 M,
      copyTable env cfg sanitize nowClock tableName tlm = Except.ok (out, tlm2)
      ∧ dlookup tlm2 tableName = some (some M)
      ∧ M ∈ files.map AcceptedFile.lastModified
      ∧ (∀ y ∈ files.map AcceptedFile.lastModified, y ≤ M)
      ∧ cfg.startDate ≤ M := by
  -- every accepted file is strictly newer than the watermark
  have hstrict : ∀ f : AcceptedFile, f ∈ files → cfg.startDate < f.lastModified := by
    intro f hf
    have hcopy := hfiles
    unfold getInputFilesForTable at hcopy
    cases hcomp : ts.searchPatternCompiled with
    | none =>
      rw [hcomp] at hcopy
      simp at hcopy
    | some search =>
      rw [hcomp] at hcopy
      by_cases hm : (scanAll search (some cfg.startDate) env.listing).matched = 0
      · simp [hm] at hcopy
      · simp only [hm, if_false] at hcopy
        have hfy : f ∈ yieldedFiles search (some cfg.startDate) env.listing := by
          unfold yieldedFiles
          rw [Except.ok.injEq] at hcopy
          rw [hcopy]
          exact hf
        have hb := mem_yieldedFiles_msLtB search (some cfg.startDate) env.listing f hfy
        simpa [msLtB] using hb
  rcases files with _ | ⟨f0, rest⟩
  · exact absurd rfl hne
  have hfold : (f0 :: rest).foldl (fun m f => maxUpdate m f.lastModified) none =
      some ((rest.map AcceptedFile.lastModified).foldl Nat.max f0.lastModified) := by
    have h1 : (f0 :: rest).foldl (fun m f => maxUpdate m f.lastModified) none =
        ((f0 :: rest).map AcceptedFile.lastModified).foldl maxUpdate none :=
      (List.foldl_map AcceptedFile.lastModified maxUpdate (f0 :: rest) none).symm
    rw [h1, List.map_cons]
    exact foldl_maxUpdate_cons _ _
  have h1 : copyTable env cfg sanitize nowClock tableName tlm = Except.ok
      (⟨sortStrings (extractAll env cfg sanitize nowClock (f0 :: rest)).2,
        (extractAll env cfg sanitize nowClock (f0 :: rest)).1.map
          (fun r => (sortStrings (extractAll env cfg sanitize nowClock (f0 :: rest)).2).map
            (fun c => dlookup r c))⟩,
       dictInsert tlm tableName
        (some ((rest.map AcceptedFile.lastModified).foldl Nat.max f0.lastModified))) := by
    simp only [copyTable, hts, hfiles, hfold]
  have hMem : (rest.map AcceptedFile.lastModified).foldl Nat.max f0.lastModified ∈
      (f0 :: rest).map AcceptedFile.lastModified := by
    rw [List.map_cons]
    rcases foldl_max_mem (rest.map AcceptedFile.lastModified) f0.lastModified with h | h
    · rw [h]
      exact List.mem_cons_self _ _
    · exact List.mem_cons_of_mem _ h
  have hUB : ∀ y ∈ (f0 :: rest).map AcceptedFile.lastModified,
      y ≤ (rest.map AcceptedFile.lastModified).foldl Nat.max f0.lastModified := by
    intro y hy
    rw [List.map_cons] at hy
    rcases List.mem_cons.mp hy with rfl | h
    · exact le_foldl_max _ _
    · exact foldl_max_ub _ _ _ h
  have hSD : cfg.startDate ≤
      (rest.map AcceptedFile.lastModified).foldl Nat.max f0.lastModified := by
    rcases List.mem_map.mp hMem with ⟨f, hf, hfM⟩
    rw [← hfM]
    exact Nat.le_of_lt (hstrict f hf)
  exact ⟨_, dictInsert tlm tableName
      (some ((rest.map AcceptedFile.lastModified).foldl Nat.max f0.lastModified)),
    (rest.map AcceptedFile.lastModified).foldl Nat.max f0.lastModified,
    h1, dlookup_dictInsert_self _ _ _, hMem, hUB, hSD⟩

/-- Witness for C4 at a concrete input: two objects newer than the
watermark 3 are accepted; the watermark recorded by copy_table is their
maximum last_modified, 5. -/
theorem c4_watermark_max_witness :
    (copyTable ⟨[⟨"f1", 2, 5⟩, ⟨"f2", 2, 4⟩], fun _ => []⟩
        ⟨"b", 3, [⟨"t", none, "p", some (fun _ => true)⟩]⟩
        (fun s => s) (fun _ => "T") "t" []).map (fun r => dlookup r.2 "t") =
      Except.ok (some (some 5)) := by
  rcases c4_watermark_max ⟨[⟨"f1", 2, 5⟩, ⟨"f2", 2, 4⟩], fun _ => []⟩
      ⟨"b", 3, [⟨"t", none, "p", some (fun _ => true)⟩]⟩
      (fun s => s) (fun _ => "T") "t" [] ⟨"t", none, "p", some (fun _ => true)⟩
      [⟨"f1", 5⟩, ⟨"f2", 4⟩] (by rfl) (by rfl) (by decide) with
    ⟨out, tlm2, M, h1, h2, hM, hUB, hSD⟩
  rw [h1]
  simp only [Except.map]
  rw [h2]
  have h5 : (5 : Nat) ≤ M := hUB 5 (by decide)
  have hMcases : M = 5 ∨ M = 4 := by simpa using hM
  rcases hMcases with rfl | rfl
  · rfl
  · omega

/-- Claim C6: the header row of the artifact written by `copy_table` is the
sorted union of all column names observed across all records accumulated in
that run — it is ascending, duplicate-free, and holds exactly the names
occurring in some record — and every field of every record is written under
its own column (no record's field is dropped). -/
theorem c6_header_sorted_union (env : S3Env) (cfg : ConnectionConfig)
    (sanitize : String → String) (nowClock : Nat → String) (tableName : String)
    (tlm : List (String × Option Nat)) (ts : TableSpec) (files : List AcceptedFile)
    (out : OutputArtifact) (tlm2 : List (String × Option Nat))
    (hts : findTableSpecByName cfg tableName = some ts)
    (hfiles : getInputFilesForTable cfg.bucket ts env.listing (some cfg.startDate) =
      Except.ok files)
    (hct : copyTable env cfg sanitize nowClock tableName tlm = Except.ok (out, tlm2)) :
    out.header = sortStrings (extractAll env cfg sanitize nowClock files).2
    ∧ out.header.Pairwise (· ≤ ·)
    ∧ out.header.Nodup
    ∧ (∀ k, k ∈ out.header ↔
        ∃ r ∈ (extractAll env cfg sanitize nowClock files).1, k ∈ dkeys r)
    ∧ out.rows = (extractAll env cfg sanitize nowClock files).1.map
        (fun r => out.header.map (fun c => dlookup r c))
    ∧ ∀ r ∈ (extractAll env cfg sanitize nowClock files).1, ∀ k v, dlookup r k = some v →
        k ∈ out.header ∧ ∃ i, out.header.get? i = some k ∧
          (out.header.map (fun c => dlookup r c)).get? i = some (some v) := by
  have hred : copyTable env cfg sanitize nowClock tableName tlm = Except.ok
      (⟨sortStrings (extractAll env cfg sanitize nowClock files).2,
        (extractAll env cfg sanitize nowClock files).1.map
          (fun r => (sortStrings (extractAll env cfg sanitize nowClock files).2).map
            (fun c => dlookup r c))⟩,
       dictInsert tlm tableName
        (files.foldl (fun m f => maxUpdate m f.lastModified) none)) := by
    simp only [copyTable, hts, hfiles]
  have hpair := Except.ok.inj (hred.symm.trans hct)
  have hout : out = ⟨sortStrings (extractAll env cfg sanitize nowClock files).2,
      (extractAll env cfg sanitize nowClock files).1.map
        (fun r => (sortStrings (extractAll env cfg sanitize nowClock files).2).map
          (fun c => dlookup r c))⟩ := (congrArg Prod.fst hpair).symm
  subst hout
  have hinv := extractAll_headerInv env cfg sanitize nowClock files
  refine ⟨rfl, pairwise_sortStrings _, nodup_sortStrings _ hinv.1, ?_, rfl, ?_⟩
  · intro k
    rw [show (OutputArtifact.mk (sortStrings (extractAll env cfg sanitize nowClock files).2)
        ((extractAll env cfg sanitize nowClock files).1.map
          (fun r => (sortStrings (extractAll env cfg sanitize nowClock files).2).map
            (fun c => dlookup r c)))).header =
      sortStrings (extractAll env cfg sanitize nowClock files).2 from rfl]
    rw [mem_sortStrings]
    exact hinv.2 k
  · intro r hr k v hkv
    have hkr : k ∈ dkeys r := (mem_dkeys_iff_isSome r k).mpr (by rw [hkv]; rfl)
    have hk : k ∈ sortStrings (extractAll env cfg sanitize nowClock files).2 := by
      rw [mem_sortStrings]
      exact (hinv.2 k).mpr ⟨r, hr, hkr⟩
    refine ⟨hk, ?_⟩
    rcases List.get?_of_mem hk with ⟨i, hi⟩
    refine ⟨i, hi, ?_⟩
    rw [List.get?_map, hi]
    simp [hkv]

/-- Witness for C6 at a concrete input: a run over one single-row object;
the written header is exactly the insertion-sorted set of the observed
column names. -/
theorem c6_header_sorted_union_witness :
    (OutputArtifact.mk
        ["_SDC_BATCHED_AT", "_SDC_DELETED_AT", "_SDC_EXTRACTED_AT", "_sdc_source_bucket",
         "_sdc_source_file", "_sdc_source_lineno", "b"]
        [[some (Value.str "T"), some Value.null, some (Value.str "T"),
          some (Value.str "bkt"), some (Value.str "f"), some (Value.nat 1),
          some (Value.str "1")]]).header =
      sortStrings (extractAll ⟨[⟨"f", 2, 5⟩], fun _ => [[("b", Value.str "1")]]⟩
        ⟨"bkt", 1, [⟨"t", none, "p", some (fun _ => true)⟩]⟩
        (fun s => s) (fun _ => "T") [⟨"f", 5⟩]).2 :=
  (c6_header_sorted_union ⟨[⟨"f", 2, 5⟩], fun _ => [[("b", Value.str "1")]]⟩
    ⟨"bkt", 1, [⟨"t", none, "p", some (fun _ => true)⟩]⟩
    (fun s => s) (fun _ => "T") "t" [] ⟨"t", none, "p", some (fun _ => true)⟩
    [⟨"f", 5⟩] _ [("t", some 5)] (by rfl) (by rfl) (by rfl)).1
